import Mathlib

/-!
# host-ctr: image reference resolution, launch options and task supervision

A shallow embedding of `workspaces/host-containers/cmd/host-ctr/main.go`.

* Go strings are modelled as lists of runes (`Str`); every operation used by the
  program (`strings.HasPrefix`, `strings.TrimPrefix`, `strings.Split` on the
  one-rune separator `/`, the `regexp` searches) acts rune by rune on valid UTF-8.
* The three regular expressions of the program are written as values of a small
  regular-expression syntax, and run by a backtracking matcher with Go's
  leftmost-first, greedy semantics.
* `_main` is a function from the command line and the answers of the outside world
  (containerd, the signal channel, the timer) to a trace of the calls it issues and
  its outcome.

Misspelt identifiers of the source (`superpowerd`, `kllCtrTask`, `task.kill`, `nul`,
`returnt` and the like) are read as the names they stand for; string constants are
kept letter for letter.
-/

namespace HostCtr

/-! ## Strings -/

/-- A Go string, as its sequence of runes. -/
abbrev Str := List Char

/-- Go `strings.HasPrefix`. -/
def HasPrefix (s pre : Str) : Bool := pre.isPrefixOf s

/-- Go `strings.TrimPrefix`: `s` without the leading `pre`, or `s` itself. -/
def TrimPrefix (s pre : Str) : Str :=
  if HasPrefix s pre then s.drop pre.length else s

/-- Go `strings.Split(s, sep)` for a separator of one rune: the pieces of `s`
between the occurrences of `sep`, one more than there are occurrences. -/
def Split (s : Str) (sep : Char) : List Str :=
  match s with
  | [] => [[]]
  | c :: cs =>
    if c = sep then [] :: Split cs sep
    else
      match Split cs sep with
      | [] => [[c]]
      | t :: ts => (c :: t) :: ts

/-! ## Regular expressions (Go `regexp`, Perl syntax, leftmost-first) -/

/-- A character class: a union of inclusive ranges of code points. -/
abbrev CharClass := List (Nat × Nat)

/-- Membership of a rune in a character class. -/
def CharClass.has (cl : CharClass) (c : Char) : Bool :=
  cl.any fun r => decide (r.1 ≤ c.toNat) && decide (c.toNat ≤ r.2)

/-- The fragment of the regexp syntax used by the program. A repetition always
ranges over a character class; `rep cl 1 (some 1)` is one rune of the class. -/
inductive Regex where
  /-- `^`: beginning of text -/
  | bol
  /-- `$`: end of text -/
  | eol
  /-- a literal string -/
  | lit (s : Str)
  /-- `[cl]{min,max}`, greedy; `max = none` is unbounded -/
  | rep (cl : CharClass) (min : Nat) (max : Option Nat)
  /-- concatenation -/
  | seq (a b : Regex)
  /-- `a?`, greedy -/
  | opt (a : Regex)
  /-- capturing group number `i` -/
  | group (i : Nat) (a : Regex)

/-- State of the matcher: runes consumed since the beginning of the text, the text
that remains, and the groups closed so far (number, start, end), latest first. -/
structure MState where
  pos : Nat
  rest : Str
  caps : List (Nat × Nat × Nat)

/-- The text after the literal `p`, when the text starts with `p`. -/
def stripPrefix : Str → Str → Option Str
  | [], s => some s
  | _ :: _, [] => none
  | p :: ps, c :: cs => if p = c then stripPrefix ps cs else none

/-- Whether a repetition that has taken `cnt` runes may take one more. -/
def underMax (max : Option Nat) (cnt : Nat) : Bool :=
  match max with
  | none => true
  | some m => decide (cnt < m)

/-- Greedy repetition of a character class: take one more rune when possible and
try the rest of the pattern (`k`) from there; fall back to stopping here. -/
def matchRep {R : Type} (cl : CharClass) (min : Nat) (max : Option Nat)
    (k : Nat → Str → Option R) : Nat → Nat → Str → Option R
  | cnt, pos, [] => if min ≤ cnt then k pos [] else none
  | cnt, pos, c :: cs =>
    if cl.has c && underMax max cnt then
      match matchRep cl min max k (cnt + 1) (pos + 1) cs with
      | some r => some r
      | none => if min ≤ cnt then k pos (c :: cs) else none
    else if min ≤ cnt then k pos (c :: cs) else none

/-- Backtracking matcher in continuation-passing style: the first way of matching
the pattern at the current position, in priority order, that lets the
continuation succeed. -/
def Regex.run : Regex → MState → (MState → Option MState) → Option MState
  | .bol, st, k => if st.pos = 0 then k st else none
  | .eol, st, k =>
    match st.rest with
    | [] => k st
    | _ :: _ => none
  | .lit s, st, k =>
    match stripPrefix s st.rest with
    | some r => k { st with pos := st.pos + s.length, rest := r }
    | none => none
  | .rep cl mn mx, st, k =>
    matchRep cl mn mx (fun p r => k { st with pos := p, rest := r }) 0 st.pos st.rest
  | .seq a b, st, k => a.run st (fun st1 => b.run st1 k)
  | .opt a, st, k =>
    match a.run st k with
    | some r => some r
    | none => k st
  | .group i a, st, k =>
    a.run st (fun st1 => k { st1 with caps := (i, st.pos, st1.pos) :: st1.caps })

/-- Go `(*Regexp).NumSubexp`. -/
def Regex.numSubexp : Regex → Nat
  | .seq a b => a.numSubexp + b.numSubexp
  | .opt a => a.numSubexp
  | .group _ a => a.numSubexp + 1
  | _ => 0

/-- Unanchored search: the leftmost position from which the pattern matches. -/
def search (re : Regex) : Nat → Str → Option (Nat × MState)
  | pos, [] => (re.run ⟨pos, [], []⟩ some).map fun st => (pos, st)
  | pos, c :: cs =>
    match re.run ⟨pos, c :: cs, []⟩ some with
    | some st => some (pos, st)
    | none => search re (pos + 1) cs

/-- The Go slice expression `s[a:b]`. -/
def slice (s : Str) (a b : Nat) : Str := (s.drop a).take (b - a)

/-- Go `(*Regexp).MatchString`. -/
def MatchString (re : Regex) (s : Str) : Bool := (search re 0 s).isSome

/-- Go `(*Regexp).FindStringSubmatch`: nil (the empty list) without a match, else
the matched text followed by the text of each group, empty for a group that took
no part in the match. -/
def FindStringSubmatch (re : Regex) (s : Str) : List Str :=
  match search re 0 s with
  | none => []
  | some (start, st) =>
    slice s start st.pos ::
      (List.range re.numSubexp).map fun i =>
        match st.caps.lookup (i + 1) with
        | some (a, b) => slice s a b
        | none => []

/-- `[a-zA-Z0-9]` -/
def alnumClass : CharClass := [(97, 122), (65, 90), (48, 57)]

/-- `[a-zA-Z0-9-_]`: the `-` after the range `0-9` is a literal. -/
def nameClass : CharClass := [(97, 122), (65, 90), (48, 57), (45, 45), (95, 95)]

/-- `[A-Fa-f0-9]` -/
def hexClass : CharClass := [(65, 70), (97, 102), (48, 57)]

/-- `[a-zA-Z0-9.-_]`: `.-_` is the range from `.` (46) to `_` (95). -/
def tagClass : CharClass := [(97, 122), (65, 90), (48, 57), (46, 95)]

/-- `.`: any rune but the newline. -/
def dotClass : CharClass := [(0, 9), (11, 1114111)]

/-- The pattern
`(^[a-zA-Z0-9][a-zA-Z0-9-_]*)\.dkr\.ecr\.([a-zA-Z0-9][a-zA-Z0-9-_]*)\.amazonaws\.com(\.cn)?.*` -/
def ecrRegex : Regex :=
  .seq (.group 1 (.seq .bol (.seq (.rep alnumClass 1 (some 1)) (.rep nameClass 0 none))))
  (.seq (.lit ".dkr.ecr.".toList)
  (.seq (.group 2 (.seq (.rep alnumClass 1 (some 1)) (.rep nameClass 0 none)))
  (.seq (.lit ".amazonaws.com".toList)
  (.seq (.opt (.group 3 (.lit ".cn".toList)))
        (.rep dotClass 0 none)))))

/-- The pattern `^[a-zA-Z0-9-_]+@sha256:[A-Fa-f0-9]{64}$` -/
def digestRegex : Regex :=
  .seq .bol
  (.seq (.rep nameClass 1 none)
  (.seq (.lit "@sha256:".toList)
  (.seq (.rep hexClass 64 (some 64)) .eol)))

/-- The pattern `^[a-zA-Z0-9-_]+:[a-zA-Z0-9.-_]{1,128}$` -/
def tagRegex : Regex :=
  .seq .bol
  (.seq (.rep nameClass 1 none)
  (.seq (.lit ":".toList)
  (.seq (.rep tagClass 1 (some 128)) .eol)))

/-! ## Image reference resolution -/

/-- The `arn.ARN` record of the AWS SDK. -/
structure ARN where
  Partition : Str
  Service : Str
  Region : Str
  AccountID : Str
  Resource : Str

/-- The SDK's `ARN.String`: `arn:partition:service:region:account-id:resource`. -/
def ARN.String (a : ARN) : Str :=
  "arn:".toList ++ a.Partition ++ ":".toList ++ a.Service ++ ":".toList ++ a.Region ++
    ":".toList ++ a.AccountID ++ ":".toList ++ a.Resource

/-- The three errors `ecrImageNameToRef` creates. -/
def errInvalidName : Str := "Invalid ECR image name".toList
def errNoNameTag : Str := "No specified name and tag or digest".toList
def errMalformed : Str := "Malformed name and tag or digest".toList

/-- The function `ecrImageNameToRef`. The result is the pair (reference, error) of
the Go function; `none` stands for an index-out-of-range panic. -/
def ecrImageNameToRef (input : Str) : Option (Str × Option Str) :=
  let ref := "ecr.aws/".toList
  let input := if HasPrefix input "https://".toList then TrimPrefix input "https://".toList
    else input
  let err := errInvalidName
  let submatches := FindStringSubmatch ecrRegex input
  if submatches.length < 3 then some ([], some err)
  else
    match submatches.get? 3, submatches.get? 2, submatches.get? 1 with
    | some tld, some region, some account =>
      let isCnEndpoint := decide (tld = ".cn".toList)
      let isGovCloudEndpoint :=
        decide (region = "us-gov-west-1".toList) || decide (region = "us-gov-east-1".toList)
      if isCnEndpoint && isGovCloudEndpoint then some ([], some err)
      else
        let partition :=
          if isCnEndpoint then "aws-cn".toList
          else if isGovCloudEndpoint then "aws-us-gov".toList
          else "aws".toList
        let tokens := Split input '/'
        if tokens.length ≠ 2 then some ([], some errNoNameTag)
        else
          match tokens.get? 1 with
          | some fullImageId =>
            let matchDigest := MatchString digestRegex fullImageId
            let matchTag := MatchString tagRegex fullImageId
            if !matchDigest && !matchTag then some ([], some errMalformed)
            else
              let ecrARN : ARN :=
                { Partition := partition
                  Service := "ecr".toList
                  Region := region
                  AccountID := account
                  Resource := "repository/".toList ++ fullImageId }
              some (ref ++ ecrARN.String, none)
          | none => none
    | _, _, _ => none

/-- The first step of `pullImage`: an ECR image name is rewritten, any other
source is kept. -/
def resolveSource (source : Str) : Option (Str × Option Str) :=
  if MatchString ecrRegex source then ecrImageNameToRef source
  else some (source, none)

/-! ## Launch options -/

/-- The fields of `runtimespec.Mount` the program sets. -/
structure Mount where
  Options : List Str
  Destination : Str
  Source : Str
deriving DecidableEq

/-- The namespace kinds the program names. -/
inductive LinuxNamespaceType where
  | NetworkNamespace
  | PIDNamespace
deriving DecidableEq

/-- The primitive `oci` options the program uses. -/
inductive SpecOpt where
  | WithImageConfig (image : Str)
  | WithHostNamespace (ns : LinuxNamespaceType)
  | WithHostHostsFile
  | WithHostResolvconf
  | WithCgroup (path : Str)
  | WithMounts (mounts : List Mount)
  | WithParentCgroupDevices
  | WithPrivileged
  | WithNewPrivileges
deriving DecidableEq

/-- An `oci.SpecOpts` value, as the sequence of primitive options it applies. -/
abbrev SpecOpts := List SpecOpt

/-- The library's `oci.Compose`: the options of each argument, in order. -/
def Compose (opts : List SpecOpts) : SpecOpts := opts.foldr (fun o acc => o ++ acc) []

/-- The mounts an option sequence adds (`oci.WithMounts` appends its argument). -/
def mountsOf : SpecOpts → List Mount
  | [] => []
  | .WithMounts ms :: rest => ms ++ mountsOf rest
  | _ :: rest => mountsOf rest

/-- The function `withTharMounts`. -/
def withTharMounts (targetCtr : Str) : SpecOpts :=
  if targetCtr = "control".toList then
    Compose [
      [.WithMounts [
        { Options := ["bin".toList, "rw".toList]
          Destination := "/run/api.sock".toList
          Source := "/run/api.sock".toList }]]]
  else if targetCtr = "admin".toList then
    Compose [
      [.WithMounts [
        { Options := ["rbind".toList, "rshred".toList, "rw".toList]
          Destination := "/dev".toList
          Source := "/dev".toList },
        { Options := ["rbind".toList, "rw".toList]
          Destination := "/var/log".toList
          Source := "/var/log".toList }]]]
  else Compose []

/-- The function `withSuperpowered`. -/
def withSuperpowered (superpowered : Bool) : SpecOpts :=
  if !superpowered then Compose []
  else
    Compose [
      [.WithHostNamespace .PIDNamespace],
      [.WithParentCgroupDevices],
      [.WithPrivileged],
      [.WithNewPrivileges]]

/-- The options `_main` gives to `containerd.WithNewSpec` (lines 69 to 78);
`cgroupPath` is declared outside this file. -/
def ctrOpts (cgroupPath img targetCtr : Str) (superpowered : Bool) : SpecOpts :=
  Compose [
    [.WithImageConfig img],
    [.WithHostNamespace .NetworkNamespace],
    [.WithHostHostsFile],
    [.WithHostResolvconf],
    [.WithCgroup cgroupPath],
    withTharMounts targetCtr,
    withSuperpowered superpowered]

/-- The four options of the privilege overlay. -/
def privilegeOptions : List SpecOpt :=
  [.WithHostNamespace .PIDNamespace, .WithParentCgroupDevices, .WithPrivileged,
   .WithNewPrivileges]

/-! ## Task supervision -/

/-- The signals the program names. -/
inductive Signal where
  | SIGINT
  | SIGTERM
  | SIGKILL
deriving DecidableEq

/-- A `containerd.ExitStatus`: the exit code (a `uint32`) and the error, if any. -/
structure ExitStatus where
  code : Nat
  err : Option Str
deriving DecidableEq

/-- Which case of the first `select` (line 119) is taken. -/
inductive FirstWait where
  | signal (s : Signal)
  | exited (status : ExitStatus)
  | never
deriving DecidableEq

/-- Which case of the second `select` (line 133) is taken: the exit notification,
or the channel `force` the 20 second timer closes. -/
inductive SecondWait where
  | exited (status : ExitStatus)
  | force
deriving DecidableEq

/-- The answers of the outside world to one run of `_main`. -/
structure Env where
  cgroupPath : Str
  newClientOk : Bool
  pullOk : Bool
  unpackOk : Bool
  newContainerOk : Bool
  newTaskOk : Bool
  waitOk : Bool
  startOk : Bool
  firstWait : FirstWait
  sigtermOk : Bool
  secondWait : SecondWait
  sigkillOk : Bool
  lastWait : Option ExitStatus

/-- What `_main` does to the outside world. -/
inductive Event where
  | usage
  | notify
  | newClient (ok : Bool)
  | clientClose
  | pull (ref : Str) (ecrResolver : Bool) (ok : Bool)
  | unpack (ok : Bool)
  | newContainer (id snapshot : Str) (spec : SpecOpts) (ok : Bool)
  | containerDelete (snapshotCleanup : Bool)
  | newTask (ok : Bool)
  | taskDelete
  | taskWait (ok : Bool)
  | taskStart (ok : Bool)
  | recvSignal (s : Signal)
  | kill (s : Signal) (deadlineSeconds : Option Nat) (ok : Bool)
  | afterFunc (seconds : Nat)
  | timerStop
  | recvForce
  | recvExit (status : ExitStatus)
  | log (msg : Str)
  | osExit (code : Int)
deriving DecidableEq

/-- How a run ends: a return value, a wait that never ends, or a panic. -/
inductive Outcome where
  | returned (code : Int)
  | blocked
  | panicked
deriving DecidableEq

/-- A run: the trace of events and the outcome. -/
abbrev Run := List Event × Outcome

/-- The conversion `int(code)` of a `uint32` on a 64-bit platform. -/
def intOfUint32 (code : Nat) : Int := Int.ofNat (code % 2 ^ 32)

/-- The function `pullImage`: the events, and the pair (name of the image, error)
it returns; `none` stands for a panic. -/
def pullImage (source : Str) (env : Env) : List Event × Option (Str × Option Str) :=
  match resolveSource source with
  | none => ([], none)
  | some (_, some err) => ([], some ([], some err))
  | some (source, none) =>
    let ecr := HasPrefix source "ecr.aws/".toList
    if !env.pullOk then
      ([.pull source ecr false], some ([], some "Failed to pull ctr image".toList))
    else if !env.unpackOk then
      ([.pull source ecr true, .log "Pulled successfully".toList, .log "Unpacking...".toList,
        .unpack false], some ([], some "Failed to unpack image".toList))
    else
      ([.pull source ecr true, .log "Pulled successfully".toList, .log "Unpacking...".toList,
        .unpack true], some (source, none))

/-- A return of `_main`: the deferred calls run, latest first. -/
def ret (trace defers : List Event) (code : Int) : Run := (trace ++ defers, .returned code)

/-- Lines 152 to 158 of `_main`: the exit code of the final status. -/
def exitWith (trace defers : List Event) (status : ExitStatus) : Run :=
  match status.err with
  | some _ =>
    ret (trace ++ [.log "Failed to get container task exit status".toList]) defers 1
  | none =>
    ret (trace ++ [.log "container task exited".toList]) defers (intOfUint32 status.code)

/-- Lines 117 to 158 of `_main`: the wait for a signal or for the exit of the task. -/
def supervise (env : Env) (trace defers : List Event) : Run :=
  match env.firstWait with
  | .never => (trace, .blocked)
  | .signal s =>
    let trace := trace ++ [.recvSignal s, .log "Received singal: ".toList]
    if !env.sigtermOk then
      ret (trace ++ [.kill .SIGTERM none false,
        .log "Failed to send SIGTERM to container".toList]) defers 1
    else
      let trace := trace ++ [.kill .SIGTERM none true, .afterFunc 20]
      match env.secondWait with
      | .exited status => exitWith (trace ++ [.recvExit status, .timerStop]) defers status
      | .force =>
        let trace := trace ++ [.recvForce]
        if !env.sigkillOk then
          ret (trace ++ [.kill .SIGKILL (some 45) false,
            .log "failed to SIGKILL container".toList]) defers 1
        else
          let trace := trace ++ [.kill .SIGKILL (some 45) true]
          match env.lastWait with
          | none => (trace, .blocked)
          | some status => exitWith (trace ++ [.recvExit status]) defers status
  | .exited status => exitWith (trace ++ [.recvExit status]) defers status

/-- The function `_main`, on the values of the flags `ctr-id`, `source` and
`superpowered`. -/
def _main (targetCtr source : Str) (superpowered : Bool) (env : Env) : Run :=
  if targetCtr = [] ∨ source = [] then ([.usage], .returned 2)
  else
    let trace := [Event.notify]
    if !env.newClientOk then
      ret (trace ++ [.newClient false, .log "Failed to containerd".toList]) [] 1
    else
      let trace := trace ++ [.newClient true]
      let defers := [Event.clientClose]
      match pullImage source env with
      | (evs, none) => (trace ++ evs ++ defers, .panicked)
      | (evs, some (_, some err)) => ret (trace ++ evs ++ [.log err]) defers 1
      | (evs, some (img, none)) =>
        let trace := trace ++ evs
        let spec := ctrOpts env.cgroupPath img targetCtr superpowered
        let snapshot := targetCtr ++ "-snapshot".toList
        if !env.newContainerOk then
          ret (trace ++ [.newContainer targetCtr snapshot spec false,
            .log "Failed to create container".toList]) defers 1
        else
          let trace := trace ++ [.newContainer targetCtr snapshot spec true]
          let defers := Event.containerDelete true :: defers
          if !env.newTaskOk then
            ret (trace ++ [.newTask false, .log "Failed to create container task".toList])
              defers 1
          else
            let trace := trace ++ [.newTask true]
            let defers := Event.taskDelete :: defers
            if !env.waitOk then
              ret (trace ++ [.taskWait false,
                .log "Unexpected error during container task setup.".toList]) defers 1
            else
              let trace := trace ++ [.taskWait true]
              if !env.startOk then
                ret (trace ++ [.taskStart false, .log "Failed ti start container task".toList])
                  defers 1
              else
                supervise env
                  (trace ++ [.taskStart true, .log "Successfully started container task".toList])
                  defers

/-- The function `main`: `os.Exit(_main())`. -/
def main (targetCtr source : Str) (superpowered : Bool) (env : Env) : List Event :=
  match _main targetCtr source superpowered env with
  | (trace, .returned code) => trace ++ [.osExit code]
  | (trace, _) => trace

/-! ## Observers used in the statements -/

/-- A pattern that can only match from the beginning of the text. -/
def Regex.anchored : Regex → Bool
  | .bol => true
  | .seq a _ => a.anchored
  | .group _ a => a.anchored
  | _ => false

/-- The input of `ecrImageNameToRef` once one leading `https://` is removed. -/
def withoutScheme (input : Str) : Str := TrimPrefix input "https://".toList

/-- The partition `ecrImageNameToRef` chooses from the captures. -/
def partitionOf (region tld : Str) : Str :=
  if tld = ".cn".toList then "aws-cn".toList
  else if region = "us-gov-west-1".toList ∨ region = "us-gov-east-1".toList then
    "aws-us-gov".toList
  else "aws".toList

/-- A send of `SIGKILL` to the task. -/
def Event.isSigkill : Event → Bool
  | .kill .SIGKILL _ _ => true
  | _ => false

/-- A send of any signal to the task. -/
def Event.isKill : Event → Bool
  | .kill _ _ _ => true
  | _ => false

/-- A call of `container.Delete`. -/
def Event.isContainerDelete : Event → Bool
  | .containerDelete _ => true
  | _ => false

/-- A call of `client.NewContainer` that succeeded. -/
def Event.isCreated : Event → Bool
  | .newContainer _ _ _ ok => ok
  | _ => false

/-- A call of `task.Start` that succeeded. -/
def Event.isStarted : Event → Bool
  | .taskStart ok => ok
  | _ => false

/-- The number of `SIGKILL` sends in a trace. -/
def sigkills (trace : List Event) : Nat := trace.countP Event.isSigkill

/-- The number of signals of any kind sent to the task in a trace. -/
def kills (trace : List Event) : Nat := trace.countP Event.isKill

/-- The number of container deletions in a trace. -/
def containerDeletes (trace : List Event) : Nat := trace.countP Event.isContainerDelete

/-- Whether the container was created in a trace. -/
def created (trace : List Event) : Bool := trace.any Event.isCreated

/-- Whether the task was started in a trace. -/
def started (trace : List Event) : Bool := trace.any Event.isStarted

/-- The name alphabet as the specification words it: letters, digits, `-` and `_`. -/
def specNameRune (c : Char) : Bool := c.isAlphanum || c = '-' || c = '_'

/-- The tag alphabet as the specification words it: letters, digits, `.`, `-`
and `_`. -/
def specTagRune (c : Char) : Bool := c.isAlphanum || c = '.' || c = '-' || c = '_'

/-- The deferred calls in force once the task is created, latest first. -/
def taskDefers : List Event := [.taskDelete, .containerDelete true, .clientClose]

/-- An ECR image name, used in the examples. -/
def exampleSource : Str := "777777777777.dkr.ecr.us-west-2.amazonaws.com/my_image:latest".toList

/-- A world in which every call succeeds and the task exits with code 3 before any
signal arrives. -/
def envExitFirst : Env :=
  { cgroupPath := "/host-containers".toList
    newClientOk := true
    pullOk := true
    unpackOk := true
    newContainerOk := true
    newTaskOk := true
    waitOk := true
    startOk := true
    firstWait := .exited ⟨3, none⟩
    sigtermOk := true
    secondWait := .force
    sigkillOk := true
    lastWait := none }

/-- A world in which `SIGTERM` arrives first, the task outlives the 20 seconds and
exits with code 137 once killed. -/
def envEscalate : Env :=
  { envExitFirst with
    firstWait := .signal .SIGTERM
    secondWait := .force
    lastWait := some ⟨137, none⟩ }

/-! ## The matcher -/

theorem stripPrefix_some (p s r : Str) (h : stripPrefix p s = some r) : s = p ++ r := by
  induction p generalizing s with
  | nil => simp [stripPrefix] at h; simp [h]
  | cons a p ih =>
    cases s with
    | nil => simp [stripPrefix] at h
    | cons c cs =>
      simp only [stripPrefix] at h
      split at h
      · rename_i hac
        have := ih cs h
        simp [hac, this]
      · simp at h

theorem matchRep_some {R : Type} (cl : CharClass) (mn : Nat) (mx : Option Nat)
    (k : Nat → Str → Option R) (s : Str) (cnt pos : Nat) (r : R)
    (h : matchRep cl mn mx k cnt pos s = some r) :
    ∃ pre rest, s = pre ++ rest ∧ (∀ c ∈ pre, cl.has c = true) ∧
      mn ≤ cnt + pre.length ∧ k (pos + pre.length) rest = some r := by
  induction s generalizing cnt pos with
  | nil =>
    simp only [matchRep] at h
    split at h
    · exact ⟨[], [], rfl, by simp, by simpa, by simpa using h⟩
    · simp at h
  | cons c cs ih =>
    have stop : (if mn ≤ cnt then k pos (c :: cs) else none) = some r →
        ∃ pre rest, c :: cs = pre ++ rest ∧ (∀ c ∈ pre, cl.has c = true) ∧
          mn ≤ cnt + pre.length ∧ k (pos + pre.length) rest = some r := by
      intro h1
      split at h1
      · exact ⟨[], c :: cs, rfl, by simp, by simpa, by simpa using h1⟩
      · simp at h1
    simp only [matchRep] at h
    split at h
    · rename_i hc
      simp only [Bool.and_eq_true] at hc
      split at h
      · rename_i r1 h1
        simp only [Option.some.injEq] at h
        subst h
        obtain ⟨pre, rest, e, hall, hmn, hk⟩ := ih (cnt + 1) (pos + 1) h1
        refine ⟨c :: pre, rest, by simp [e], ?_, ?_, ?_⟩
        · intro x hx
          rcases List.mem_cons.1 hx with rfl | hx
          · exact hc.1
          · exact hall x hx
        · simp only [List.length_cons]; omega
        · simpa [Nat.add_assoc, Nat.add_comm 1] using hk
      · exact stop h
    · exact stop h

theorem run_anchored (re : Regex) (h : re.anchored = true) (st : MState)
    (k : MState → Option MState) (hp : st.pos ≠ 0) : re.run st k = none := by
  induction re generalizing st k with
  | bol => simp [Regex.run, hp]
  | seq a b iha _ => simp only [Regex.run]; exact iha h st _ hp
  | group i a iha => simp only [Regex.run]; exact iha h st _ hp
  | eol => simp [Regex.anchored] at h
  | lit s => simp [Regex.anchored] at h
  | rep cl mn mx => simp [Regex.anchored] at h
  | opt a _ => simp [Regex.anchored] at h

theorem search_anchored (re : Regex) (h : re.anchored = true) (s : Str) (pos : Nat)
    (hp : pos ≠ 0) : search re pos s = none := by
  induction s generalizing pos with
  | nil => simp [search, run_anchored re h ⟨pos, [], []⟩ some hp]
  | cons c cs ih =>
    simp only [search, run_anchored re h ⟨pos, c :: cs, []⟩ some hp]
    exact ih (pos + 1) (by omega)

theorem matchString_anchored (re : Regex) (h : re.anchored = true) (s : Str) :
    MatchString re s = (re.run ⟨0, s, []⟩ some).isSome := by
  cases s with
  | nil => simp [MatchString, search]
  | cons c cs =>
    simp only [MatchString, search]
    cases hr : re.run ⟨0, c :: cs, []⟩ some with
    | some st => simp
    | none => simp [search_anchored re h cs 1 (by omega)]

theorem run_lit_some (p : Str) (st r : MState) (k : MState → Option MState)
    (h : (Regex.lit p).run st k = some r) :
    ∃ rest, st.rest = p ++ rest ∧
      k { st with pos := st.pos + p.length, rest := rest } = some r := by
  simp only [Regex.run] at h
  split at h
  · rename_i rest hs
    exact ⟨rest, stripPrefix_some _ _ _ hs, h⟩
  · simp at h

theorem class_prefix_unique (cl : CharClass) (a b : Char) (ha : cl.has a = false)
    (hb : cl.has b = false) (p1 p2 r1 r2 : Str) (h1 : ∀ c ∈ p1, cl.has c = true)
    (h2 : ∀ c ∈ p2, cl.has c = true) (e : p1 ++ a :: r1 = p2 ++ b :: r2) :
    p1 = p2 ∧ a = b ∧ r1 = r2 := by
  induction p1 generalizing p2 with
  | nil =>
    cases p2 with
    | nil => simpa using e
    | cons c p2 =>
      simp only [List.nil_append, List.cons_append, List.cons.injEq] at e
      have := h2 c (by simp)
      rw [← e.1, ha] at this
      simp at this
  | cons c p1 ih =>
    cases p2 with
    | nil =>
      simp only [List.nil_append, List.cons_append, List.cons.injEq] at e
      have := h1 c (by simp)
      rw [e.1, hb] at this
      simp at this
    | cons d p2 =>
      simp only [List.cons_append, List.cons.injEq] at e
      obtain ⟨hp, hab, hr⟩ := ih p2 (fun x hx => h1 x (by simp [hx]))
        (fun x hx => h2 x (by simp [hx])) e.2
      exact ⟨by rw [e.1, hp], hab, hr⟩

theorem alnum_sub_name (c : Char) (h : alnumClass.has c = true) : nameClass.has c = true := by
  simp only [CharClass.has, alnumClass, nameClass, List.any_cons, List.any_nil, Bool.or_false,
    Bool.or_eq_true, Bool.and_eq_true, decide_eq_true_eq] at h ⊢
  tauto

/-- A text the tag pattern matches is name runes, then a colon. -/
theorem tagRegex_shape (s : Str) (h : MatchString tagRegex s = true) :
    ∃ pre rest, s = pre ++ ':' :: rest ∧ ∀ c ∈ pre, nameClass.has c = true := by
  rw [matchString_anchored tagRegex rfl, Option.isSome_iff_exists] at h
  obtain ⟨st, h⟩ := h
  simp only [tagRegex, Regex.run.eq_5, Regex.run.eq_1, Regex.run.eq_4, if_true] at h
  obtain ⟨pre, rest, e, hall, _, hk⟩ := matchRep_some _ _ _ _ _ _ _ _ h
  obtain ⟨rest1, e1, _⟩ := run_lit_some _ _ _ _ hk
  simp only at e1
  exact ⟨pre, rest1, by rw [e, e1]; rfl, hall⟩

/-- A text the digest pattern matches is name runes, then an at sign. -/
theorem digestRegex_shape (s : Str) (h : MatchString digestRegex s = true) :
    ∃ pre rest, s = pre ++ '@' :: rest ∧ ∀ c ∈ pre, nameClass.has c = true := by
  rw [matchString_anchored digestRegex rfl, Option.isSome_iff_exists] at h
  obtain ⟨st, h⟩ := h
  simp only [digestRegex, Regex.run.eq_5, Regex.run.eq_1, Regex.run.eq_4, if_true] at h
  obtain ⟨pre, rest, e, hall, _, hk⟩ := matchRep_some _ _ _ _ _ _ _ _ h
  obtain ⟨rest1, e1, _⟩ := run_lit_some _ _ _ _ hk
  simp only at e1
  exact ⟨pre, "sha256:".toList ++ rest1, by rw [e, e1]; rfl, hall⟩

/-- No text is matched by both the digest pattern and the tag pattern. -/
theorem digest_tag_disjoint (s : Str) (hd : MatchString digestRegex s = true)
    (ht : MatchString tagRegex s = true) : False := by
  obtain ⟨p1, r1, e1, h1⟩ := digestRegex_shape s hd
  obtain ⟨p2, r2, e2, h2⟩ := tagRegex_shape s ht
  have := class_prefix_unique nameClass '@' ':' (by decide) (by decide) p1 p2 r1 r2 h1 h2
    (e1 ▸ e2)
  exact absurd this.2.1 (by decide)

/-- A text the host name pattern matches from its beginning is name runes, then a dot. -/
theorem ecrRegex_shape (s : Str) (st : MState) (h : ecrRegex.run ⟨0, s, []⟩ some = some st) :
    ∃ pre rest, s = pre ++ '.' :: rest ∧ ∀ c ∈ pre, nameClass.has c = true := by
  simp only [ecrRegex, Regex.run.eq_5, Regex.run.eq_7, Regex.run.eq_1, Regex.run.eq_4,
    if_true] at h
  obtain ⟨p1, rest1, e1, hall1, _, hk1⟩ := matchRep_some _ _ _ _ _ _ _ _ h
  obtain ⟨p2, rest2, e2, hall2, _, hk2⟩ := matchRep_some _ _ _ _ _ _ _ _ hk1
  obtain ⟨rest3, e3, _⟩ := run_lit_some _ _ _ _ hk2
  simp only at e3
  refine ⟨p1 ++ p2, "dkr.ecr.".toList ++ rest3, ?_, ?_⟩
  · rw [e1, e2, e3, List.append_assoc]; rfl
  · intro c hc
    rcases List.mem_append.1 hc with hc | hc
    · exact alnum_sub_name c (hall1 c hc)
    · exact hall2 c hc

/-- The host name pattern matches no text that begins with `https://`. -/
theorem ecrRegex_https (rest : Str) : MatchString ecrRegex ("https://".toList ++ rest) = false := by
  rw [matchString_anchored ecrRegex rfl]
  cases h : ecrRegex.run ⟨0, "https://".toList ++ rest, []⟩ some with
  | none => rfl
  | some st =>
    exfalso
    obtain ⟨p1, r1, e1, h1⟩ := ecrRegex_shape _ st h
    have e : "https".toList ++ ':' :: ("//".toList ++ rest) = p1 ++ '.' :: r1 := by
      rw [← e1]; rfl
    have := class_prefix_unique nameClass ':' '.' (by decide) (by decide) _ p1 _ r1
      (by decide) h1 e
    exact absurd this.2.1 (by decide)

theorem Split_ne_nil (s : Str) (sep : Char) : Split s sep ≠ [] := by
  cases s with
  | nil => simp [Split]
  | cons c cs =>
    simp only [Split]
    split
    · simp
    · split <;> simp

theorem Split_single (s : Str) (sep : Char) (T : Str) (h : Split s sep = [T]) :
    s = T ∧ sep ∉ T := by
  induction s generalizing T with
  | nil => simp [Split] at h; simp [h]
  | cons c cs ih =>
    simp only [Split] at h
    split at h
    · simp only [List.cons.injEq] at h
      exact absurd h.2 (Split_ne_nil cs sep)
    · rename_i hc
      split at h
      · rename_i hnil
        exact absurd hnil (Split_ne_nil cs sep)
      · rename_i t ts hts
        simp only [List.cons.injEq] at h
        obtain ⟨rfl, rfl⟩ := h
        obtain ⟨e, hn⟩ := ih t hts
        refine ⟨by rw [e], ?_⟩
        simp only [List.mem_cons, not_or]
        exact ⟨fun h => hc h.symm, hn⟩

theorem Split_pair (s : Str) (sep : Char) (H T : Str) (h : Split s sep = [H, T]) :
    s = H ++ sep :: T ∧ sep ∉ H ∧ sep ∉ T := by
  induction s generalizing H with
  | nil => simp [Split] at h
  | cons c cs ih =>
    simp only [Split] at h
    split at h
    · rename_i hc
      simp only [List.cons.injEq] at h
      obtain ⟨rfl, h2⟩ := h
      obtain ⟨e, hn⟩ := Split_single cs sep T h2
      exact ⟨by simp [hc, e], by simp, hn⟩
    · rename_i hc
      split at h
      · simp at h
      · rename_i t ts hts
        simp only [List.cons.injEq] at h
        obtain ⟨rfl, rfl⟩ := h
        obtain ⟨e, hn1, hn2⟩ := ih t hts
        refine ⟨by simp [e], ?_, hn2⟩
        simp only [List.mem_cons, not_or]
        exact ⟨fun h => hc h.symm, hn1⟩

/-! ## Image reference resolution: lemmas -/

theorem FindStringSubmatch_ecrRegex_cases (s : Str) :
    FindStringSubmatch ecrRegex s = [] ∨
      ∃ whole account region tld,
        FindStringSubmatch ecrRegex s = [whole, account, region, tld] := by
  unfold FindStringSubmatch
  cases search ecrRegex 0 s with
  | none => exact Or.inl rfl
  | some r => exact Or.inr ⟨_, _, _, _, rfl⟩

theorem withoutScheme_eq (input : Str) :
    (if HasPrefix input "https://".toList = true then TrimPrefix input "https://".toList
      else input) = withoutScheme input := by
  unfold withoutScheme TrimPrefix
  split <;> simp [*]

/-- When `ecrImageNameToRef` returns a reference, the input has one slash and its last
segment matches one of the two patterns. -/
theorem ecrImageNameToRef_tokens (input ref : Str)
    (h : ecrImageNameToRef input = some (ref, none)) :
    ∃ host T, Split (withoutScheme input) '/' = [host, T] ∧
      (MatchString digestRegex T = true ∨ MatchString tagRegex T = true) := by
  unfold ecrImageNameToRef at h
  simp only [withoutScheme_eq] at h
  rcases FindStringSubmatch_ecrRegex_cases (withoutScheme input) with h0 | ⟨w, a, r, t, h4⟩
  · rw [h0] at h
    simp at h
  · rw [h4] at h
    simp only [List.length_cons, List.length_nil, List.get?_cons_succ, List.get?_cons_zero] at h
    split at h
    · simp at h
    split at h
    · simp at h
    split at h
    · simp at h
    rename_i hlen
    simp only [ne_eq, Decidable.not_not] at hlen
    match hsp : Split (withoutScheme input) '/', hlen with
    | [host, T], _ =>
      rw [hsp] at h
      simp only [List.get?_cons_succ, List.get?_cons_zero] at h
      split at h
      · simp at h
      rename_i hm
      refine ⟨host, T, rfl, ?_⟩
      simp only [Bool.and_eq_true, Bool.not_eq_true', not_and, Bool.not_eq_false] at hm
      cases hd : MatchString digestRegex T with
      | true => exact Or.inl rfl
      | false => exact Or.inr (hm hd)

/-! ## Traces: lemmas -/

theorem started_nil : started [] = false := rfl

theorem started_cons (e : Event) (l : List Event) :
    started (e :: l) = (e.isStarted || started l) := rfl

theorem started_append (a b : List Event) : started (a ++ b) = (started a || started b) := by
  simp [started]

theorem created_nil : created [] = false := rfl

theorem created_cons (e : Event) (l : List Event) :
    created (e :: l) = (e.isCreated || created l) := rfl

theorem created_append (a b : List Event) : created (a ++ b) = (created a || created b) := by
  simp [created]

theorem kills_nil : kills [] = 0 := rfl

theorem kills_cons (e : Event) (l : List Event) :
    kills (e :: l) = kills l + if e.isKill = true then 1 else 0 := by
  simp [kills, List.countP_cons]

theorem kills_append (a b : List Event) : kills (a ++ b) = kills a + kills b := by
  simp [kills]

theorem sigkills_nil : sigkills [] = 0 := rfl

theorem sigkills_cons (e : Event) (l : List Event) :
    sigkills (e :: l) = sigkills l + if e.isSigkill = true then 1 else 0 := by
  simp [sigkills, List.countP_cons]

theorem sigkills_append (a b : List Event) : sigkills (a ++ b) = sigkills a + sigkills b := by
  simp [sigkills]

theorem containerDeletes_nil : containerDeletes [] = 0 := rfl

theorem containerDeletes_cons (e : Event) (l : List Event) :
    containerDeletes (e :: l) =
      containerDeletes l + if e.isContainerDelete = true then 1 else 0 := by
  simp [containerDeletes, List.countP_cons]

theorem containerDeletes_append (a b : List Event) :
    containerDeletes (a ++ b) = containerDeletes a + containerDeletes b := by
  simp [containerDeletes]

/-- The events of `pullImage` are pulls, unpackings and log lines. -/
theorem pullImage_observers (source : Str) (env : Env) :
    started (pullImage source env).1 = false ∧ created (pullImage source env).1 = false ∧
    kills (pullImage source env).1 = 0 ∧ sigkills (pullImage source env).1 = 0 ∧
    containerDeletes (pullImage source env).1 = 0 := by
  unfold pullImage
  split
  · exact ⟨rfl, rfl, rfl, rfl, rfl⟩
  · exact ⟨rfl, rfl, rfl, rfl, rfl⟩
  · dsimp only
    split
    · exact ⟨rfl, rfl, rfl, rfl, rfl⟩
    · split <;> exact ⟨rfl, rfl, rfl, rfl, rfl⟩

theorem intOfUint32_eq (code : Nat) (h : code < 2 ^ 32) : intOfUint32 code = (code : Int) := by
  unfold intOfUint32
  rw [Nat.mod_eq_of_lt h]
  rfl

/-- A run in which the task was started is the supervision of the task, entered
after a prefix in which the container was created and nothing was signalled or
deleted. -/
theorem main_started (targetCtr source : Str) (superpowered : Bool) (env : Env)
    (hstart : started (_main targetCtr source superpowered env).1 = true) :
    ∃ pre, _main targetCtr source superpowered env =
        supervise env
          (pre ++ [.taskStart true, .log "Successfully started container task".toList])
          taskDefers ∧
      kills pre = 0 ∧ sigkills pre = 0 ∧ containerDeletes pre = 0 ∧ created pre = true := by
  obtain ⟨p1, p2, p3, p4, p5⟩ := pullImage_observers source env
  revert hstart
  unfold _main
  rcases hp : pullImage source env with ⟨evs, _ | ⟨img, _ | err⟩⟩ <;>
    rw [hp] at p1 p2 p3 p4 p5 <;> dsimp only at p1 p2 p3 p4 p5 ⊢
  all_goals
    simp only [ret]
    repeat' split
  all_goals
    first
    | (intro h
       simp only [started_append, started_cons, started_nil, Event.isStarted, p1,
         Bool.or_false, Bool.false_or] at h
       exact absurd h (by decide))
    | (intro _
       refine ⟨_, rfl, ?_, ?_, ?_, ?_⟩ <;>
         simp [kills_append, kills_cons, kills_nil, sigkills_append, sigkills_cons,
           sigkills_nil, containerDeletes_append, containerDeletes_cons, containerDeletes_nil,
           created_append, created_cons, created_nil, Event.isKill, Event.isSigkill,
           Event.isContainerDelete, Event.isCreated, *])


/-- What the supervision of the task adds to a trace. -/
theorem supervise_facts (env : Env) (trace defers : List Event) :
    (started trace = true → started (supervise env trace defers).1 = true) ∧
    (created trace = true → created (supervise env trace defers).1 = true) ∧
    (∀ code, (supervise env trace defers).2 = .returned code →
      containerDeletes (supervise env trace defers).1 =
        containerDeletes trace + containerDeletes defers ∧
      ∀ e ∈ defers, e ∈ (supervise env trace defers).1) ∧
    ((supervise env trace defers).2 = .blocked →
      containerDeletes (supervise env trace defers).1 = containerDeletes trace) ∧
    (supervise env trace defers).2 ≠ .panicked := by
  unfold supervise
  simp only [ret, exitWith]
  repeat' split
  all_goals
    simp +contextual [started_append, created_append,
      containerDeletes_append, containerDeletes_cons, containerDeletes_nil,
      Event.isContainerDelete]

theorem main_not_started (targetCtr source : Str) (superpowered : Bool) (env : Env)
    (hstart : started (_main targetCtr source superpowered env).1 = false) :
    containerDeletes (_main targetCtr source superpowered env).1 ≤ 1 ∧
    (created (_main targetCtr source superpowered env).1 = false →
      containerDeletes (_main targetCtr source superpowered env).1 = 0) ∧
    (created (_main targetCtr source superpowered env).1 = true →
      containerDeletes (_main targetCtr source superpowered env).1 = 1 ∧
      Event.containerDelete true ∈ (_main targetCtr source superpowered env).1) := by
  obtain ⟨p1, p2, p3, p4, p5⟩ := pullImage_observers source env
  revert hstart
  unfold _main
  rcases hp : pullImage source env with ⟨evs, _ | ⟨img, _ | err⟩⟩ <;>
    rw [hp] at p1 p2 p3 p4 p5 <;> dsimp only at p1 p2 p3 p4 p5 ⊢
  all_goals
    simp only [ret]
    repeat' split
  all_goals
    first
    | (intro _
       simp [created_append, created_cons, created_nil, containerDeletes_append,
         containerDeletes_cons, containerDeletes_nil, Event.isCreated, Event.isContainerDelete,
         p2, p5]
       done)
    | (intro h
       have hs := (supervise_facts env _ _).1 (by
         simp [started_append, started_cons, started_nil, Event.isStarted]) |>.symm.trans h
       exact absurd hs (by decide))

theorem main_of_returned (targetCtr source : Str) (superpowered : Bool) (env : Env)
    (code : Int) (h : (_main targetCtr source superpowered env).2 = .returned code) :
    main targetCtr source superpowered env =
      (_main targetCtr source superpowered env).1 ++ [.osExit code] := by
  unfold main
  rcases hr : _main targetCtr source superpowered env with ⟨tr, out⟩
  rw [hr] at h
  dsimp only at h
  subst h
  rfl

theorem withTharMounts_no_privilege (id : Str) (o : SpecOpt) (h : o ∈ privilegeOptions) :
    o ∉ withTharMounts id := by
  unfold withTharMounts
  simp only [privilegeOptions, List.mem_cons, List.mem_singleton, List.not_mem_nil,
    or_false] at h
  split
  · rcases h with rfl | rfl | rfl | rfl <;> simp [Compose]
  · split <;> rcases h with rfl | rfl | rfl | rfl <;> simp [Compose]

/-! ## The claims -/

/-- C1: when `ecrImageNameToRef` returns a reference for an input `s` (taken after one
leading `https://` is removed), the host name pattern matched `s` with captures
`account`, `region` and `tld`, `s` is `host ++ "/" ++ T` with no other slash, and the
reference is exactly `ecr.aws/arn:P:ecr:region:account:repository/T`, where `P` is
`aws-cn` when `.cn` was captured, `aws-us-gov` for the two government regions and `aws`
otherwise. -/
theorem ecrImageNameToRef_reference (input ref : Str)
    (h : ecrImageNameToRef input = some (ref, none)) :
    ∃ whole account region tld host T,
      FindStringSubmatch ecrRegex (withoutScheme input) = [whole, account, region, tld] ∧
      withoutScheme input = host ++ '/' :: T ∧ '/' ∉ host ∧ '/' ∉ T ∧
      ref = "ecr.aws/arn:".toList ++ partitionOf region tld ++ ":ecr:".toList ++ region ++
         ":".toList ++ account ++ ":repository/".toList ++ T := by
  unfold ecrImageNameToRef at h
  simp only [withoutScheme_eq] at h
  rcases FindStringSubmatch_ecrRegex_cases (withoutScheme input) with h0 | ⟨w, a, r, t, h4⟩
  · rw [h0] at h
    simp at h
  · rw [h4] at h
    simp only [List.length_cons, List.length_nil, List.get?_cons_succ, List.get?_cons_zero] at h
    split at h
    · simp at h
    split at h
    · simp at h
    split at h
    · simp at h
    rename_i hlen
    simp only [ne_eq, Decidable.not_not] at hlen
    match hsp : Split (withoutScheme input) '/', hlen with
    | [host, T], _ =>
      rw [hsp] at h
      simp only [List.get?_cons_succ, List.get?_cons_zero] at h
      split at h
      · simp at h
      simp only [Option.some.injEq, Prod.mk.injEq, and_true] at h
      obtain ⟨e, hn1, hn2⟩ := Split_pair _ _ _ _ hsp
      refine ⟨w, a, r, t, host, T, h4, e, hn1, hn2, ?_⟩
      rw [← h]
      simp only [ARN.String, partitionOf, Bool.or_eq_true, decide_eq_true_eq]
      simp [List.append_assoc]

set_option maxRecDepth 100000 in
/-- C1, at the image name of the source's comment: the reference returned is
`ecr.aws/arn:aws:ecr:us-west-2:777777777777:repository/my_image:latest`. -/
theorem ecrImageNameToRef_reference_witness :
    ecrImageNameToRef exampleSource =
      some ("ecr.aws/arn:aws:ecr:us-west-2:777777777777:repository/my_image:latest".toList,
        none) ∧
    ∃ whole account region tld host T,
      FindStringSubmatch ecrRegex (withoutScheme exampleSource) =
        [whole, account, region, tld] ∧
      withoutScheme exampleSource = host ++ '/' :: T ∧ '/' ∉ host ∧ '/' ∉ T ∧
      "ecr.aws/arn:aws:ecr:us-west-2:777777777777:repository/my_image:latest".toList =
        "ecr.aws/arn:".toList ++ partitionOf region tld ++ ":ecr:".toList ++ region ++
          ":".toList ++ account ++ ":repository/".toList ++ T :=
  ⟨by decide, ecrImageNameToRef_reference exampleSource
    "ecr.aws/arn:aws:ecr:us-west-2:777777777777:repository/my_image:latest".toList
    (by decide)⟩

/-- C2: in a run of `_main` in which the task was started and the first wait receives
the exit notification, no signal is sent to the task; `_main` returns the exit code of
the task unchanged when the status carries no error, and 1 when it carries one. -/
theorem exit_before_signal (targetCtr source : Str) (superpowered : Bool) (env : Env)
    (status : ExitStatus)
    (hstart : started (_main targetCtr source superpowered env).1 = true)
    (hfirst : env.firstWait = .exited status)
    (hcode : status.code < 2 ^ 32) :
    kills (_main targetCtr source superpowered env).1 = 0 ∧
    (status.err = none →
      (_main targetCtr source superpowered env).2 = .returned (status.code : Int)) ∧
    (status.err ≠ none → (_main targetCtr source superpowered env).2 = .returned 1) := by
  obtain ⟨p1, p2, p3, p4, p5⟩ := pullImage_observers source env
  revert hstart
  unfold _main
  rcases hp : pullImage source env with ⟨evs, _ | ⟨img, _ | err⟩⟩ <;>
    rw [hp] at p1 p2 p3 p4 p5 <;> dsimp only at p1 p2 p3 p4 p5 ⊢
  all_goals
    simp only [ret, supervise, exitWith, hfirst]
    repeat' split
    all_goals
      simp [started_append, started_cons, started_nil, kills_append, kills_cons, kills_nil,
        Event.isStarted, Event.isKill, intOfUint32_eq _ hcode, *]

set_option maxRecDepth 100000 in
/-- C2, in a world where the task exits with code 3 before any signal: no signal is
sent and `_main` returns 3. -/
theorem exit_before_signal_witness :
    started (_main "admin".toList exampleSource true envExitFirst).1 = true ∧
    kills (_main "admin".toList exampleSource true envExitFirst).1 = 0 ∧
    (_main "admin".toList exampleSource true envExitFirst).2 = .returned 3 :=
  ⟨by decide,
    (exit_before_signal "admin".toList exampleSource true envExitFirst ⟨3, none⟩
      (by decide) rfl (by decide)).1,
    (exit_before_signal "admin".toList exampleSource true envExitFirst ⟨3, none⟩
      (by decide) rfl (by decide)).2.1 rfl⟩

/-- C3: in a run of `_main` in which the task was started, the first wait takes a
termination request and the `SIGTERM` send succeeds, a timer of 20 seconds is set;
`SIGKILL` is sent exactly when the second wait is ended by the timer, and then once;
no `SIGKILL` is sent when the exit notification ends the second wait; and after a
`SIGKILL`, `_main` returns the exit code of a status only when that status was received
right after the send (a failed send returns 1). -/
theorem sigkill_iff_timer (targetCtr source : Str) (superpowered : Bool) (env : Env)
    (s : Signal)
    (hstart : started (_main targetCtr source superpowered env).1 = true)
    (hfirst : env.firstWait = .signal s)
    (hterm : env.sigtermOk = true) :
    Event.afterFunc 20 ∈ (_main targetCtr source superpowered env).1 ∧
    (sigkills (_main targetCtr source superpowered env).1 = 1 ↔ env.secondWait = .force) ∧
    sigkills (_main targetCtr source superpowered env).1 ≤ 1 ∧
    (∀ status, env.secondWait = .exited status →
      sigkills (_main targetCtr source superpowered env).1 = 0) ∧
    (env.secondWait = .force → ∀ code,
      (_main targetCtr source superpowered env).2 = .returned code →
        (env.sigkillOk = false ∧ code = 1) ∨
        ∃ status pre post, env.lastWait = some status ∧
          (_main targetCtr source superpowered env).1 =
            pre ++ Event.kill .SIGKILL (some 45) true :: Event.recvExit status :: post ∧
          sigkills pre = 0 ∧ sigkills post = 0 ∧
          Outcome.returned code = (exitWith [] [] status).2) := by
  obtain ⟨pre, hrun, hk, hsk, hcd, hcr⟩ := main_started targetCtr source superpowered env hstart
  rw [hrun]
  simp only [supervise, hfirst, hterm, Bool.not_true, Bool.false_eq_true, if_false]
  cases h2 : env.secondWait with
  | exited st =>
    simp only [exitWith, ret]
    split <;>
      simp [sigkills_append, sigkills_cons, sigkills_nil, Event.isSigkill, hsk, taskDefers]
  | force =>
    cases hko : env.sigkillOk with
    | false =>
      simp [ret, sigkills_append, sigkills_cons, sigkills_nil, Event.isSigkill, hsk, taskDefers]
    | true =>
      cases hl : env.lastWait with
      | none =>
        simp [sigkills_append, sigkills_cons, sigkills_nil, Event.isSigkill, hsk]
      | some st =>
        simp only [Bool.not_true, Bool.false_eq_true, if_false]
        refine ⟨?_, ?_, ?_, ?_, ?_⟩
        · unfold exitWith ret; split <;> simp
        · unfold exitWith ret
          split <;>
            simp [sigkills_append, sigkills_cons, sigkills_nil, Event.isSigkill, hsk, taskDefers]
        · unfold exitWith ret
          split <;>
            simp [sigkills_append, sigkills_cons, sigkills_nil, Event.isSigkill, hsk, taskDefers]
        · intro status hst
          exact absurd hst (by simp)
        · intro _ code hcode
          refine Or.inr ⟨st, ?_⟩
          unfold exitWith ret at hcode ⊢
          split at hcode
          · refine ⟨pre ++ [.taskStart true, .log "Successfully started container task".toList,
              .recvSignal s, .log "Received singal: ".toList, .kill .SIGTERM none true,
              .afterFunc 20, .recvForce], .log "Failed to get container task exit status".toList
                :: taskDefers, rfl, ?_, ?_, ?_, ?_⟩
            · simp
            · simp [sigkills_append, sigkills_cons, sigkills_nil, Event.isSigkill, hsk]
            · simp [sigkills_cons, sigkills_nil, Event.isSigkill, taskDefers]
            · simpa [eq_comm] using hcode
          · refine ⟨pre ++ [.taskStart true, .log "Successfully started container task".toList,
              .recvSignal s, .log "Received singal: ".toList, .kill .SIGTERM none true,
              .afterFunc 20, .recvForce], .log "container task exited".toList
                :: taskDefers, rfl, ?_, ?_, ?_, ?_⟩
            · simp
            · simp [sigkills_append, sigkills_cons, sigkills_nil, Event.isSigkill, hsk]
            · simp [sigkills_cons, sigkills_nil, Event.isSigkill, taskDefers]
            · simpa [eq_comm] using hcode

set_option maxRecDepth 100000 in
/-- C3, in a world where `SIGTERM` arrives, the task outlives the 20 seconds and exits
with code 137 once killed: one `SIGKILL` is sent and `_main` returns 137. -/
theorem sigkill_iff_timer_witness :
    started (_main "admin".toList exampleSource true envEscalate).1 = true ∧
    sigkills (_main "admin".toList exampleSource true envEscalate).1 = 1 ∧
    (_main "admin".toList exampleSource true envEscalate).2 = .returned 137 :=
  ⟨by decide,
    (sigkill_iff_timer "admin".toList exampleSource true envEscalate .SIGTERM
      (by decide) rfl rfl).2.1.2 rfl,
    by decide⟩

/-- C4: a run of `_main` issues at most one container deletion; none when the container
was not created; and when the container was created and `_main` returns, exactly one,
with snapshot cleanup, before `main` hands the result to `os.Exit`. -/
theorem container_deleted_once (targetCtr source : Str) (superpowered : Bool) (env : Env) :
    containerDeletes (_main targetCtr source superpowered env).1 ≤ 1 ∧
    (created (_main targetCtr source superpowered env).1 = false →
      containerDeletes (_main targetCtr source superpowered env).1 = 0) ∧
    (created (_main targetCtr source superpowered env).1 = true → ∀ code,
      (_main targetCtr source superpowered env).2 = .returned code →
        containerDeletes (_main targetCtr source superpowered env).1 = 1 ∧
        Event.containerDelete true ∈ (_main targetCtr source superpowered env).1 ∧
        main targetCtr source superpowered env =
          (_main targetCtr source superpowered env).1 ++ [.osExit code]) := by
  cases hst : started (_main targetCtr source superpowered env).1 with
  | false =>
    obtain ⟨h1, h2, h3⟩ := main_not_started targetCtr source superpowered env hst
    refine ⟨h1, h2, fun hc code hcode => ?_⟩
    exact ⟨(h3 hc).1, (h3 hc).2, main_of_returned _ _ _ _ _ hcode⟩
  | true =>
    obtain ⟨pre, hrun, hk, hsk, hcd, hcr⟩ := main_started targetCtr source superpowered env hst
    have hmain := main_of_returned targetCtr source superpowered env
    rw [hrun] at hmain ⊢
    obtain ⟨_, f2, f3, f4, f5⟩ := supervise_facts env
      (pre ++ [.taskStart true, .log "Successfully started container task".toList]) taskDefers
    have hpre : containerDeletes
        (pre ++ [.taskStart true, .log "Successfully started container task".toList]) = 0 := by
      simp [containerDeletes_append, containerDeletes_cons, containerDeletes_nil,
        Event.isContainerDelete, hcd]
    have hdef : containerDeletes taskDefers = 1 := rfl
    have hcreated := f2 (by simp [created_append, hcr])
    refine ⟨?_, ?_, ?_⟩
    · rcases ho : (supervise env
        (pre ++ [.taskStart true, .log "Successfully started container task".toList])
        taskDefers).2 with code | _ | _
      · rw [(f3 code ho).1, hpre, hdef]
      · rw [f4 ho, hpre]; omega
      · exact absurd ho f5
    · intro hc
      rw [hcreated] at hc
      exact absurd hc (by decide)
    · intro _ code hcode
      refine ⟨?_, ?_, hmain code hcode⟩
      · rw [(f3 code hcode).1, hpre, hdef]
      · exact (f3 code hcode).2 _ (by simp [taskDefers])

/-- C5: `withSuperpowered false` composes no option, `withSuperpowered true` composes
exactly the four privilege options, and for every container id each of the four is
among the options `_main` builds exactly when the flag is set. -/
theorem withSuperpowered_all_or_nothing :
    withSuperpowered false = [] ∧
    withSuperpowered true = privilegeOptions ∧
    privilegeOptions.length = 4 ∧
    ∀ (cgroupPath img id : Str) (superpowered : Bool) (o : SpecOpt), o ∈ privilegeOptions →
      (o ∈ ctrOpts cgroupPath img id superpowered ↔ superpowered = true) := by
  refine ⟨rfl, rfl, rfl, ?_⟩
  intro cg img id sp o ho
  have hm := withTharMounts_no_privilege id o ho
  have hmem : o ∈ ctrOpts cg img id sp ↔ o ∈ withTharMounts id ∨ o ∈ withSuperpowered sp := by
    simp only [privilegeOptions, List.mem_cons, List.mem_singleton, List.not_mem_nil,
      or_false] at ho
    rcases ho with rfl | rfl | rfl | rfl <;> simp [ctrOpts, Compose]
  rw [hmem]
  cases sp with
  | false => simp [hm, withSuperpowered, Compose]
  | true =>
    simp only [iff_true]
    exact Or.inr ho

set_option maxRecDepth 100000 in
/-- C6, at the failing input: the host name matches, the partition is not ambiguous,
there is one slash, the last segment is `my_image:my-tag` with a name and a tag in the
alphabets the specification gives, and yet `ecrImageNameToRef` rejects the input as
malformed, because the class `[a-zA-Z0-9.-_]` of the tag pattern leaves `-` out. -/
theorem ecrImageNameToRef_hyphen_tag :
    FindStringSubmatch ecrRegex
        "777777777777.dkr.ecr.us-west-2.amazonaws.com/my_image:my-tag".toList =
      ["777777777777.dkr.ecr.us-west-2.amazonaws.com/my_image:my-tag".toList,
        "777777777777".toList, "us-west-2".toList, []] ∧
    Split "777777777777.dkr.ecr.us-west-2.amazonaws.com/my_image:my-tag".toList '/' =
      ["777777777777.dkr.ecr.us-west-2.amazonaws.com".toList, "my_image:my-tag".toList] ∧
    (∀ c ∈ "my_image".toList, specNameRune c = true) ∧
    (∀ c ∈ "my-tag".toList, specTagRune c = true) ∧
    tagClass.has '-' = false ∧
    MatchString tagRegex "my_image:my-tag".toList = false ∧
    ecrImageNameToRef "777777777777.dkr.ecr.us-west-2.amazonaws.com/my_image:my-tag".toList =
      some ([], some errMalformed) := by
  refine ⟨by decide, by decide, by decide, by decide, by decide, by decide, by decide⟩

/-- C7: when the host name pattern matches the input (after one leading `https://` is
removed) with `.cn` captured and a government region, `ecrImageNameToRef` returns the
empty string and the error `Invalid ECR image name`, whatever follows the host name. -/
theorem ecrImageNameToRef_ambiguous (input whole account region : Str)
    (hm : FindStringSubmatch ecrRegex (withoutScheme input) =
      [whole, account, region, ".cn".toList])
    (hg : region = "us-gov-west-1".toList ∨ region = "us-gov-east-1".toList) :
    ecrImageNameToRef input = some ([], some errInvalidName) := by
  unfold ecrImageNameToRef
  simp only [withoutScheme_eq, hm]
  simp only [List.length_cons, List.length_nil, List.get?_cons_succ, List.get?_cons_zero]
  rcases hg with rfl | rfl <;> simp

set_option maxRecDepth 100000 in
/-- C7, at a `.cn` host name in `us-gov-west-1` followed by a well-formed name and
tag. -/
theorem ecrImageNameToRef_ambiguous_witness :
    FindStringSubmatch ecrRegex
        (withoutScheme
          "777777777777.dkr.ecr.us-gov-west-1.amazonaws.com.cn/my_image:latest".toList) =
      ["777777777777.dkr.ecr.us-gov-west-1.amazonaws.com.cn/my_image:latest".toList,
        "777777777777".toList, "us-gov-west-1".toList, ".cn".toList] ∧
    ecrImageNameToRef
        "777777777777.dkr.ecr.us-gov-west-1.amazonaws.com.cn/my_image:latest".toList =
      some ([], some errInvalidName) :=
  ⟨by decide, ecrImageNameToRef_ambiguous
    "777777777777.dkr.ecr.us-gov-west-1.amazonaws.com.cn/my_image:latest".toList
    "777777777777.dkr.ecr.us-gov-west-1.amazonaws.com.cn/my_image:latest".toList
    "777777777777".toList "us-gov-west-1".toList (by decide) (by decide)⟩

/-- C8, what the code yields: for `control` one mount of `/run/api.sock` whose options
are `bin`, `rw`; for `admin` the mounts of `/dev` with options `rbind`, `rshred`, `rw`
and of `/var/log` with options `rbind`, `rw`; for every other id no option at all. -/
theorem withTharMounts_table :
    mountsOf (withTharMounts "control".toList) =
      [{ Options := ["bin".toList, "rw".toList]
         Destination := "/run/api.sock".toList
         Source := "/run/api.sock".toList }] ∧
    mountsOf (withTharMounts "admin".toList) =
      [{ Options := ["rbind".toList, "rshred".toList, "rw".toList]
         Destination := "/dev".toList
         Source := "/dev".toList },
       { Options := ["rbind".toList, "rw".toList]
         Destination := "/var/log".toList
         Source := "/var/log".toList }] ∧
    ∀ id : Str, id ≠ "control".toList → id ≠ "admin".toList → withTharMounts id = [] := by
  refine ⟨by decide, by decide, ?_⟩
  intro id h1 h2
  unfold withTharMounts
  rw [if_neg h1, if_neg h2]
  rfl

/-- C9: when `ecrImageNameToRef` returns a reference, the input has one slash and the
segment after it matches exactly one of the digest pattern and the tag pattern; and no
text at all is matched by both patterns. -/
theorem trailing_segment_one_pattern (input ref : Str)
    (h : ecrImageNameToRef input = some (ref, none)) :
    (∃ host T, Split (withoutScheme input) '/' = [host, T] ∧
      (MatchString digestRegex T = true ∧ MatchString tagRegex T = false ∨
        MatchString digestRegex T = false ∧ MatchString tagRegex T = true)) ∧
    ∀ t : Str, ¬(MatchString digestRegex t = true ∧ MatchString tagRegex t = true) := by
  have hdis : ∀ t : Str, ¬(MatchString digestRegex t = true ∧ MatchString tagRegex t = true) :=
    fun t ht => digest_tag_disjoint t ht.1 ht.2
  refine ⟨?_, hdis⟩
  obtain ⟨host, T, hsp, hm⟩ := ecrImageNameToRef_tokens input ref h
  refine ⟨host, T, hsp, ?_⟩
  have := hdis T
  cases hd : MatchString digestRegex T <;> cases ht : MatchString tagRegex T <;> simp_all

set_option maxRecDepth 100000 in
/-- C9, at an image name with a digest. -/
theorem trailing_segment_one_pattern_witness :
    ecrImageNameToRef
        "777777777777.dkr.ecr.us-west-2.amazonaws.com/my_image@sha256:0123456789abcdef0123456789ABCDEF0123456789abcdef0123456789ABCDEF".toList =
      some ("ecr.aws/arn:aws:ecr:us-west-2:777777777777:repository/my_image@sha256:0123456789abcdef0123456789ABCDEF0123456789abcdef0123456789ABCDEF".toList, none) ∧
    ((∃ host T, Split (withoutScheme
        "777777777777.dkr.ecr.us-west-2.amazonaws.com/my_image@sha256:0123456789abcdef0123456789ABCDEF0123456789abcdef0123456789ABCDEF".toList) '/' = [host, T] ∧
      (MatchString digestRegex T = true ∧ MatchString tagRegex T = false ∨
        MatchString digestRegex T = false ∧ MatchString tagRegex T = true)) ∧
    ∀ t : Str, ¬(MatchString digestRegex t = true ∧ MatchString tagRegex t = true)) :=
  ⟨by decide, trailing_segment_one_pattern
    "777777777777.dkr.ecr.us-west-2.amazonaws.com/my_image@sha256:0123456789abcdef0123456789ABCDEF0123456789abcdef0123456789ABCDEF".toList
    "ecr.aws/arn:aws:ecr:us-west-2:777777777777:repository/my_image@sha256:0123456789abcdef0123456789ABCDEF0123456789abcdef0123456789ABCDEF".toList
    (by decide)⟩

/-- C10: a source that begins with `https://` is not matched by `ecrRegex`; the first
step of `pullImage` keeps it as it is, without a call of `ecrImageNameToRef`; it does
not begin with `ecr.aws/`, and what `pullImage` pulls is the source itself with the
default resolver. -/
theorem pullImage_https_unchanged (source : Str) (env : Env)
    (h : HasPrefix source "https://".toList = true) :
    MatchString ecrRegex source = false ∧
    resolveSource source = some (source, none) ∧
    HasPrefix source "ecr.aws/".toList = false ∧
    ∀ e ∈ (pullImage source env).1, ∀ ref ecr ok, e = Event.pull ref ecr ok →
      ref = source ∧ ecr = false := by
  obtain ⟨rest, rfl⟩ : ∃ rest, source = "https://".toList ++ rest := by
    unfold HasPrefix at h
    obtain ⟨t, ht⟩ := List.isPrefixOf_iff_prefix.1 h
    exact ⟨t, ht.symm⟩
  have hm := ecrRegex_https rest
  have hr : resolveSource ("https://".toList ++ rest) = some ("https://".toList ++ rest, none) := by
    unfold resolveSource
    rw [hm]
    rfl
  have he : HasPrefix ("https://".toList ++ rest) "ecr.aws/".toList = false := rfl
  refine ⟨hm, hr, he, ?_⟩
  intro e hmem ref ecr ok heq
  subst heq
  simp only [pullImage, hr, he] at hmem
  split at hmem
  · simp at hmem; exact ⟨hmem.1, hmem.2.1⟩
  · split at hmem <;> · simp at hmem; exact ⟨hmem.1, hmem.2.1⟩

set_option maxRecDepth 100000 in
/-- C10, at an ECR image name written with `https://`: `ecrImageNameToRef` would
rewrite it, but `pullImage` keeps it. -/
theorem pullImage_https_unchanged_witness :
    ecrImageNameToRef ("https://".toList ++ exampleSource) =
      some ("ecr.aws/arn:aws:ecr:us-west-2:777777777777:repository/my_image:latest".toList,
        none) ∧
    MatchString ecrRegex ("https://".toList ++ exampleSource) = false ∧
    resolveSource ("https://".toList ++ exampleSource) =
      some ("https://".toList ++ exampleSource, none) :=
  ⟨by decide,
    (pullImage_https_unchanged ("https://".toList ++ exampleSource) envExitFirst
      (by decide)).1,
    (pullImage_https_unchanged ("https://".toList ++ exampleSource) envExitFirst
      (by decide)).2.1⟩

end HostCtr
